import Mathlib

/-!
Verification of the durable event-scheduling subsystem of ntfy-fetch.

This file gives a shallow embedding of the relevant parts of the source:
  - src/core/EventQueue.ts        (the durable event store)
  - src/core/EventBus.ts          (the EventScheduler)
  - src/core/NotificationService.ts (the delivery gateway)
  - src/types/events.ts           (the data model)

Modelling conventions:
  - Instants (JS Date values and Date.now()) are epoch milliseconds, as Int.
  - The JS Map keyed by event id is modelled as a list of events together
    with a key-set semantics: setEvent replaces the first entry whose id
    matches (preserving position, as Map.set does) or appends; well-formed
    states have pairwise distinct ids (WF below).
  - Asynchronous effects (logging, file I/O) are dropped except where a
    claim depends on them: the debounced-save machinery is abstracted to a
    dirty flag set by every mutating operation and cleared by shutdown,
    and loadEvents is modelled over an abstract file state.
-/

namespace NtfyFetch

/-- Event lifecycle status, from ScheduledEvent.status in src/types/events.ts. -/
inductive EventStatus
  | pending
  | scheduled
  | sent
  | failed
deriving DecidableEq, Repr

/-- Notification payload carried by a scheduled event (ScheduledEvent.payload). -/
structure EventPayload where
  title : String
  message : String
  priorityLevel : Option String
  tags : List String
deriving DecidableEq, Repr

/-- A persisted scheduled event (interface ScheduledEvent in src/types/events.ts).
Timestamps are epoch milliseconds. -/
structure ScheduledEvent where
  id : String
  pluginName : String
  eventType : String
  scheduledFor : Int
  status : EventStatus
  retryCount : Nat
  maxRetries : Nat
  payload : EventPayload
  createdAt : Int
  updatedAt : Int
  lastAttemptAt : Option Int
  completedAt : Option Int
  error : Option String
deriving DecidableEq, Repr

/-- The argument of EventQueue.add: a ScheduledEvent with createdAt, updatedAt
and retryCount omitted (they are stamped by add). -/
structure NewEvent where
  id : String
  pluginName : String
  eventType : String
  scheduledFor : Int
  status : EventStatus
  maxRetries : Nat
  payload : EventPayload
  lastAttemptAt : Option Int
  completedAt : Option Int
  error : Option String
deriving DecidableEq, Repr

/-- State of an EventQueue (src/core/EventQueue.ts): the events Map, the two
retention options and the isDirty flag of the debounced-save machinery. -/
structure EventQueue where
  events : List ScheduledEvent
  retentionHours : Nat
  maxRetries : Nat
  dirty : Bool
deriving DecidableEq, Repr

/-- Lookup in the events Map: this.events.get(id). -/
def findEvent (l : List ScheduledEvent) (id : String) : Option ScheduledEvent :=
  l.find? (fun e => e.id == id)

/-- Insertion into the events Map: this.events.set(e.id, e). Replaces the
entry with the same key in place, or appends a fresh entry. -/
def setEvent : List ScheduledEvent → ScheduledEvent → List ScheduledEvent
  | [], e => [e]
  | x :: rest, e => if x.id == e.id then e :: rest else x :: setEvent rest e

/-- Exponential backoff of EventQueue.markAsFailed:
Math.min(Math.pow(2, newRetryCount) * 1000, 60000). -/
def backoffMs (n : Nat) : Nat := min (2 ^ n * 1000) 60000

/-- Well-formed store: at most one record per id (the Map key invariant). -/
def EventQueue.WF (q : EventQueue) : Prop :=
  (q.events.map ScheduledEvent.id).Nodup

namespace EventQueue

/-- EventQueue.get. -/
def get (q : EventQueue) (id : String) : Option ScheduledEvent :=
  findEvent q.events id

/-- EventQueue.update: spreads the partial update over the stored record,
forces the id to stay unchanged and refreshes updatedAt; no-op on a missing
id. The partial update object of the source is modelled as a function on
the record touching only the fields the call site lists. -/
def update (q : EventQueue) (id : String) (f : ScheduledEvent → ScheduledEvent)
    (now : Int) : EventQueue :=
  match findEvent q.events id with
  | none => q
  | some e =>
    let e2 := { f e with id := e.id, updatedAt := now }
    { q with events := setEvent q.events e2, dirty := true }

/-- EventQueue.remove: returns whether the record existed, and deletes it.
scheduleSave runs only when it existed. -/
def remove (q : EventQueue) (id : String) : Bool × EventQueue :=
  let existed := q.events.any (fun e => e.id == id)
  (existed,
    { q with events := q.events.filter (fun e => !(e.id == id)),
             dirty := q.dirty || existed })

/-- EventQueue.add: stamps createdAt/updatedAt with now, retryCount 0,
maxRetries defaulted through the or-else on falsy values (0), then sets the
record into the Map (silently overwriting a record with the same id). -/
def add (q : EventQueue) (ne : NewEvent) (now : Int) : ScheduledEvent × EventQueue :=
  let fullEvent : ScheduledEvent :=
    { id := ne.id
      pluginName := ne.pluginName
      eventType := ne.eventType
      scheduledFor := ne.scheduledFor
      status := ne.status
      retryCount := 0
      maxRetries := if ne.maxRetries = 0 then q.maxRetries else ne.maxRetries
      payload := ne.payload
      createdAt := now
      updatedAt := now
      lastAttemptAt := ne.lastAttemptAt
      completedAt := ne.completedAt
      error := ne.error }
  (fullEvent, { q with events := setEvent q.events fullEvent, dirty := true })

/-- EventQueue.markAsScheduled. -/
def markAsScheduled (q : EventQueue) (id : String) (now : Int) : EventQueue :=
  q.update id (fun e => { e with status := .scheduled }) now

/-- EventQueue.markAsSent. -/
def markAsSent (q : EventQueue) (id : String) (now : Int) : EventQueue :=
  q.update id (fun e => { e with status := .sent, completedAt := some now }) now

/-- EventQueue.markAsFailed: increments the retry count; at or past
maxRetries the event becomes failed, otherwise it is rescheduled pending
with exponential backoff. No-op on a missing id. -/
def markAsFailed (q : EventQueue) (id : String) (err : String) (now : Int) :
    EventQueue :=
  match q.get id with
  | none => q
  | some e =>
    let n := e.retryCount + 1
    if e.maxRetries ≤ n then
      q.update id (fun ev =>
        { ev with status := .failed, retryCount := n,
                  lastAttemptAt := some now, error := some err }) now
    else
      q.update id (fun ev =>
        { ev with status := .pending, retryCount := n,
                  scheduledFor := now + (backoffMs n : Int),
                  lastAttemptAt := some now, error := some err }) now

/-- The loop body of EventQueue.cleanup over the entries of the Map:
deletes terminal records whose updatedAt is strictly before the cutoff,
counting deletions. -/
def cleanupList (cutoff : Int) : List ScheduledEvent → List ScheduledEvent × Nat
  | [] => ([], 0)
  | e :: rest =>
    let r := cleanupList cutoff rest
    if (e.status = .sent ∨ e.status = .failed) ∧ e.updatedAt < cutoff then
      (r.1, r.2 + 1)
    else
      (e :: r.1, r.2)

/-- EventQueue.cleanup: cutoff = now - retentionHours, removes old terminal
records, returns the removed count; scheduleSave only when something was
removed. -/
def cleanup (q : EventQueue) (now : Int) : EventQueue × Nat :=
  let cutoff := now - (q.retentionHours : Int) * 3600000
  let r := cleanupList cutoff q.events
  ({ q with events := r.1, dirty := if 0 < r.2 then true else q.dirty }, r.2)

/-- EventQueue.shutdown: flushes the pending debounced write. -/
def shutdown (q : EventQueue) : EventQueue :=
  { q with dirty := false }

end EventQueue

/-- Abstract state of the persistence file seen by EventQueue.loadEvents. -/
inductive FileState
  | missing
  | corrupt
  | parsed (events : List ScheduledEvent)
deriving Repr

/-- Result of the load: the rebuilt Map and whether the generic error path
(logger.error) was taken. -/
structure LoadOutcome where
  events : List ScheduledEvent
  errorLogged : Bool
deriving DecidableEq, Repr

/-- EventQueue.loadEvents: the whole body runs inside try/catch. A missing
file (ENOENT) is logged as info and the store stays empty; any other error
- a corrupt, unparseable file included - is logged via logger.error and
the method returns normally with the store empty: no exception escapes, so
the constructor and startup continue. -/
def loadEvents : FileState → Except String LoadOutcome
  | .missing => .ok { events := [], errorLogged := false }
  | .corrupt => .ok { events := [], errorLogged := true }
  | .parsed es => .ok { events := es.foldl setEvent [], errorLogged := false }

/-- Outcome of the axios.post in NotificationService.sendNotification:
a completed HTTP response, a timeout (ECONNABORTED), or a network error. -/
inductive HttpOutcome
  | response (status : Nat)
  | timeout
  | networkError
deriving DecidableEq, Repr

/-- The validateStatus option passed to axios: statuses below 500 resolve,
anything else rejects (and lands in the catch block). -/
def validateStatus (status : Nat) : Bool := status < 500

/-- NotificationService.sendNotification, projected onto its Boolean result:
a resolved response with status at least 400 returns false; a resolved
response below 400 returns true; every rejection (5xx, timeout, network
error) is caught and returns false. The function is total: no outcome
escapes as an exception. -/
def sendNotification (outcome : HttpOutcome) : Bool :=
  match outcome with
  | .response s => if validateStatus s then (if 400 ≤ s then false else true) else false
  | .timeout => false
  | .networkError => false

/-- State of the EventScheduler (src/core/EventBus.ts): the queue, the
scheduledTimers Map (event id paired with the instant the armed timer fires
at, which is the event's scheduledFor), the two timing options and the
isRunning flag. -/
structure EventScheduler where
  queue : EventQueue
  scheduledTimers : List (String × Int)
  checkIntervalMs : Nat
  scheduleHorizonHours : Nat
  isRunning : Bool
deriving DecidableEq, Repr

namespace EventScheduler

/-- this.scheduleHorizonHours * 60 * 60 * 1000, in ms. -/
def horizonMs (s : EventScheduler) : Int := (s.scheduleHorizonHours : Int) * 3600000

/-- this.scheduledTimers.has(id). -/
def hasTimer (s : EventScheduler) (id : String) : Bool :=
  s.scheduledTimers.any (fun t => t.1 == id)

/-- What EventScheduler.scheduleEvent did with the event it was handed. -/
inductive ScheduleAction
  | skippedAlreadyArmed
  | deliveredNow
  | armed (delayMs : Int)
  | skippedTooFar
deriving DecidableEq, Repr

/-- EventScheduler.scheduleEvent: skip when a timer is already armed for the
id; with delayMs = scheduledFor - now, an overdue event (delayMs at most 0)
is sent immediately (the sendNotification call and its effects are a
separate step, reported here as the action deliveredNow); an event past the
horizon is left untouched; otherwise a timer is armed for exactly delayMs
and the store record is marked scheduled. -/
def scheduleEvent (s : EventScheduler) (e : ScheduledEvent) (now : Int) :
    EventScheduler × ScheduleAction :=
  if s.hasTimer e.id then (s, .skippedAlreadyArmed)
  else
    let delayMs := e.scheduledFor - now
    if delayMs ≤ 0 then (s, .deliveredNow)
    else if s.horizonMs < delayMs then (s, .skippedTooFar)
    else
      ({ s with scheduledTimers := (e.id, e.scheduledFor) :: s.scheduledTimers,
                queue := s.queue.markAsScheduled e.id now },
       .armed delayMs)

/-- EventScheduler.cancelEvent: clears any live timer for the id, removes
the record from the queue, and returns whether the record existed. -/
def cancelEvent (s : EventScheduler) (id : String) : Bool × EventScheduler :=
  let s1 := { s with scheduledTimers := s.scheduledTimers.filter (fun t => !(t.1 == id)) }
  let r := s1.queue.remove id
  (r.1, { s1 with queue := r.2 })

/-- EventScheduler.stop: no-op unless running; otherwise clears the fallback
interval, clears every armed timer while reverting the corresponding store
record to pending, empties the timer index, and shuts the queue down
(flushing the debounced write). -/
def stop (s : EventScheduler) (now : Int) : EventScheduler :=
  if s.isRunning then
    let q := s.scheduledTimers.foldl
      (fun q t => q.update t.1 (fun ev => { ev with status := .pending }) now)
      s.queue
    { s with isRunning := false, scheduledTimers := [], queue := q.shutdown }
  else s

end EventScheduler

/-!
Per-event projection of the scheduler's delivery loop, for the restart and
reconciliation claims. A reconciliation round acts on each store record
independently (every step of EventBus.ts touches one record and that
record's timer entry). The projection keeps, for one event: its status,
retry accounting, due instant, whether a timer is armed (with its fire
instant), and a counter of delivery attempts made so far. Delivery
outcomes of the gateway are an oracle indexed by the attempt counter.

One round (pass) at instant now performs, in order:
  - timers whose fire instant has arrived fire: the timer entry is dropped
    and sendNotification runs (the setTimeout callback);
  - checkForMissedEvents: a pending or scheduled record that is due and
    has no live timer gets sendNotification;
  - scheduleUpcomingEvents: a pending record inside the horizon with no
    live timer goes through scheduleEvent (deliver overdue now, else arm).

sendNotification on success marks the record sent; on failure it applies
markAsFailed (increment retry count; at maxRetries the record becomes
failed terminally, otherwise pending with scheduledFor pushed to
now + backoff) and then re-runs scheduleEvent on the still-pending record,
which arms a timer when the backoff delay is inside the horizon.

Rounds run at the instants t0, t0 + I, t0 + 2I, ... of the fallback check
interval; round 0 doubles as the initial scheduleExistingEvents pass of
start().
-/

/-- The per-event projection of the scheduler state. -/
structure EvState where
  status : EventStatus
  retryCount : Nat
  maxRetries : Nat
  scheduledFor : Int
  timer : Option Int
  attempts : Nat
deriving DecidableEq, Repr

namespace EvState

/-- Terminal statuses: sent or failed. -/
def terminal (s : EvState) : Prop := s.status = .sent ∨ s.status = .failed

instance (s : EvState) : Decidable s.terminal := by
  unfold terminal
  infer_instance

/-- One delivery attempt against an event with no live timer: the
sendNotification body. ok is the gateway outcome. On failure, markAsFailed
runs and, when the record is left pending, scheduleEvent re-arms it (the
backoff delay is always positive, so the overdue branch cannot fire; a
delay beyond the horizon leaves the record pending with no timer). -/
def attemptStep (H : Int) (s : EvState) (now : Int) (ok : Bool) : EvState :=
  if ok then
    { s with status := .sent, attempts := s.attempts + 1 }
  else
    let n := s.retryCount + 1
    if s.maxRetries ≤ n then
      { s with status := .failed, retryCount := n, attempts := s.attempts + 1 }
    else
      let sf := now + (backoffMs n : Int)
      if sf - now ≤ H then
        { s with status := .scheduled, retryCount := n, scheduledFor := sf,
                 timer := some sf, attempts := s.attempts + 1 }
      else
        { s with status := .pending, retryCount := n, scheduledFor := sf,
                 timer := none, attempts := s.attempts + 1 }

/-- A live timer whose fire instant has arrived fires: drop the timer entry,
then sendNotification (the setTimeout callback of scheduleEvent). -/
def fireStep (H : Int) (ok : Nat → Bool) (s : EvState) (now : Int) : EvState :=
  match s.timer with
  | some ft =>
    if ft ≤ now then attemptStep H { s with timer := none } now (ok s.attempts) else s
  | none => s

/-- checkForMissedEvents, projected: a pending or scheduled record that is
due with no live timer gets a delivery attempt. -/
def missedStep (H : Int) (ok : Nat → Bool) (s : EvState) (now : Int) : EvState :=
  if (s.status = .pending ∨ s.status = .scheduled) ∧ s.scheduledFor ≤ now ∧ s.timer = none then
    attemptStep H s now (ok s.attempts)
  else s

/-- scheduleUpcomingEvents, projected: a pending record due inside the
horizon with no live timer goes through scheduleEvent: overdue means
deliver now, beyond the horizon means skip, otherwise arm a timer at the
due instant and mark the record scheduled. -/
def upcomingStep (H : Int) (ok : Nat → Bool) (s : EvState) (now : Int) : EvState :=
  if s.status = .pending ∧ s.timer = none ∧ s.scheduledFor ≤ now + H then
    if s.scheduledFor - now ≤ 0 then attemptStep H s now (ok s.attempts)
    else if H < s.scheduledFor - now then s
    else { s with status := .scheduled, timer := some s.scheduledFor }
  else s

/-- One reconciliation round at instant now. -/
def pass (H : Int) (ok : Nat → Bool) (s : EvState) (now : Int) : EvState :=
  upcomingStep H ok (missedStep H ok (fireStep H ok s now) now) now

/-- n rounds starting with round index k: round k + i runs at instant
t0 + (k + i) * I. -/
def stepsFrom (H I t0 : Int) (ok : Nat → Bool) : Nat → EvState → Nat → EvState
  | _, s, 0 => s
  | k, s, n + 1 => stepsFrom H I t0 ok (k + 1) (pass H ok s (t0 + (k : Int) * I)) n

/-- n rounds of a freshly started scheduler: rounds 0, 1, ..., n - 1. -/
def run (H I t0 : Int) (ok : Nat → Bool) (s : EvState) (n : Nat) : EvState :=
  stepsFrom H I t0 ok 0 s n

end EvState

/-! Store lemmas: behaviour of the Map operations. -/

theorem findEvent_id_eq {l : List ScheduledEvent} {id : String} {e : ScheduledEvent}
    (h : findEvent l id = some e) : e.id = id := by
  have hp := List.find?_some h
  simpa using hp

theorem findEvent_setEvent_self (l : List ScheduledEvent) (e : ScheduledEvent) :
    findEvent (setEvent l e) e.id = some e := by
  induction l with
  | nil => simp [setEvent, findEvent]
  | cons x rest ih =>
    by_cases hx : x.id == e.id
    · simp [setEvent, hx, findEvent]
    · simp only [setEvent, hx, if_false, Bool.false_eq_true]
      unfold findEvent at ih ⊢
      rw [List.find?_cons_of_neg _ (by simpa using hx)]
      exact ih

theorem findEvent_setEvent_ne (l : List ScheduledEvent) (e : ScheduledEvent)
    (id : String) (h : e.id ≠ id) :
    findEvent (setEvent l e) id = findEvent l id := by
  induction l with
  | nil =>
    simp [setEvent, findEvent, h]
  | cons x rest ih =>
    by_cases hx : x.id == e.id
    · have hxid : x.id = e.id := by simpa using hx
      unfold findEvent
      simp only [setEvent, hx, if_true]
      rw [List.find?_cons_of_neg _ (by simpa using h),
          List.find?_cons_of_neg _ (by simp [hxid]; exact h)]
    · simp only [setEvent, hx, if_false, Bool.false_eq_true]
      unfold findEvent at ih ⊢
      by_cases hxi : x.id == id
      · rw [List.find?_cons_of_pos _ (by simpa using hxi),
            List.find?_cons_of_pos _ (by simpa using hxi)]
      · rw [List.find?_cons_of_neg _ (by simpa using hxi),
            List.find?_cons_of_neg _ (by simpa using hxi)]
        exact ih

theorem EventQueue.get_update_found (q : EventQueue) (id : String)
    (f : ScheduledEvent → ScheduledEvent) (now : Int) (e : ScheduledEvent)
    (h : q.get id = some e) :
    (q.update id f now).get id = some { f e with id := e.id, updatedAt := now } := by
  have hid : e.id = id := findEvent_id_eq h
  unfold EventQueue.update
  rw [show findEvent q.events id = some e from h]
  unfold EventQueue.get
  show findEvent (setEvent q.events _) id = _
  rw [← hid]
  exact findEvent_setEvent_self q.events { f e with id := e.id, updatedAt := now }

theorem EventQueue.get_update_frame (q : EventQueue) (id other : String)
    (f : ScheduledEvent → ScheduledEvent) (now : Int) (h : other ≠ id) :
    (q.update other f now).get id = q.get id := by
  unfold EventQueue.update
  cases hf : findEvent q.events other with
  | none => rfl
  | some e =>
    have hid : e.id = other := findEvent_id_eq hf
    unfold EventQueue.get
    exact findEvent_setEvent_ne q.events _ id (by simpa [hid] using h)

/-! Concrete sample states used by witnesses and counterexamples. -/

def samplePayload : EventPayload :=
  { title := "High tide", message := "m", priorityLevel := none, tags := [] }

def pendingEvent : ScheduledEvent :=
  { id := "e0", pluginName := "tide", eventType := "tide.low",
    scheduledFor := 50, status := .pending, retryCount := 0, maxRetries := 3,
    payload := samplePayload, createdAt := 0, updatedAt := 0,
    lastAttemptAt := none, completedAt := none, error := none }

def pendingQueue : EventQueue :=
  { events := [pendingEvent], retentionHours := 48, maxRetries := 3, dirty := false }

def failedEvent : ScheduledEvent :=
  { id := "e1", pluginName := "tide", eventType := "tide.high",
    scheduledFor := 1000, status := .failed, retryCount := 3, maxRetries := 3,
    payload := samplePayload, createdAt := 0, updatedAt := 10,
    lastAttemptAt := some 10, completedAt := none, error := some "early" }

def failedQueue : EventQueue :=
  { events := [failedEvent], retentionHours := 48, maxRetries := 3, dirty := false }

/-- C1: for every stored event, markAsFailed increments retryCount by
exactly 1; when the incremented count reaches maxRetries the status becomes
failed, otherwise the status becomes pending and scheduledFor is advanced
to now plus min(2 to the power newRetryCount seconds, 60 seconds), so the
Nth retry waits exactly min(2 to the N, 60) seconds: retry 1 waits 2s,
retry 3 waits 8s, retry 7 is capped at 60s. -/
theorem markAsFailed_retry_backoff (q : EventQueue) (id err : String) (now : Int)
    (e : ScheduledEvent) (h : q.get id = some e) :
    (∃ e2, (q.markAsFailed id err now).get id = some e2 ∧
      e2.retryCount = e.retryCount + 1 ∧
      (e.maxRetries ≤ e.retryCount + 1 → e2.status = .failed) ∧
      (e.retryCount + 1 < e.maxRetries → e2.status = .pending ∧
        e2.scheduledFor = now + ((min (2 ^ (e.retryCount + 1) * 1000) 60000 : Nat) : Int))) ∧
    backoffMs 1 = 2000 ∧ backoffMs 3 = 8000 ∧ backoffMs 7 = 60000 := by
  refine ⟨?_, by decide, by decide, by decide⟩
  unfold EventQueue.markAsFailed
  simp only [h]
  by_cases hc : e.maxRetries ≤ e.retryCount + 1
  · simp only [hc, if_true]
    refine ⟨_, EventQueue.get_update_found q id _ now e h, by simp, fun _ => by simp,
      fun hlt => absurd hlt (by omega)⟩
  · simp only [hc, if_false]
    refine ⟨_, EventQueue.get_update_found q id _ now e h, by simp,
      fun hle => hle.elim, fun _ => ⟨by simp, by simp [backoffMs]⟩⟩

/-- C1 witness: the sample pending event is in the sample store, and the
backoff of the first retry is 2000 ms. -/
theorem markAsFailed_retry_backoff_witness :
    pendingQueue.get "e0" = some pendingEvent ∧ backoffMs 1 = 2000 :=
  ⟨by decide,
   (markAsFailed_retry_backoff pendingQueue "e0" "boom" 100 pendingEvent (by decide)).2.1⟩

/-- C4 counterexample: calling markAsFailed on an event that is already
failed is not a no-op: on the concrete failed event (retryCount 3 of
maxRetries 3), the stored record changes (retryCount becomes 4 and
lastAttemptAt and error are refreshed). -/
theorem markAsFailed_on_failed_not_noop :
    (failedQueue.markAsFailed "e1" "late" 500).get "e1" ≠ some failedEvent := by
  decide

/-- C4 amended: once an event is failed it stays failed - no further call
returns it to pending - but a further markAsFailed call is not a no-op: it
increments retryCount past maxRetries and refreshes lastAttemptAt, error
and updatedAt. -/
theorem markAsFailed_on_failed_stays_failed (q : EventQueue) (id err : String)
    (now : Int) (e : ScheduledEvent) (h : q.get id = some e)
    (_hst : e.status = .failed) (hr : e.maxRetries ≤ e.retryCount) :
    ∃ e2, (q.markAsFailed id err now).get id = some e2 ∧
      e2.status = .failed ∧ e2.retryCount = e.retryCount + 1 ∧
      e2.lastAttemptAt = some now ∧ e2.error = some err ∧ e2.updatedAt = now := by
  unfold EventQueue.markAsFailed
  simp only [h]
  have hc : e.maxRetries ≤ e.retryCount + 1 := by omega
  simp only [hc, if_true]
  exact ⟨_, EventQueue.get_update_found q id _ now e h, by simp, by simp, by simp,
    by simp, by simp⟩

/-- C4 witness: the concrete failed event satisfies the hypotheses of the
amended statement. -/
theorem markAsFailed_on_failed_stays_failed_witness :
    failedQueue.get "e1" = some failedEvent ∧
    (∃ e2, (failedQueue.markAsFailed "e1" "late" 500).get "e1" = some e2 ∧
      e2.status = .failed ∧ e2.retryCount = failedEvent.retryCount + 1 ∧
      e2.lastAttemptAt = some 500 ∧ e2.error = some "late" ∧ e2.updatedAt = 500) :=
  ⟨by decide,
   markAsFailed_on_failed_stays_failed failedQueue "e1" "late" 500 failedEvent
     (by decide) (by decide) (by decide)⟩

theorem filter_id_eq_nil_of_not_mem (rest : List ScheduledEvent) (i : String)
    (h : i ∉ rest.map ScheduledEvent.id) :
    rest.filter (fun e => e.id == i) = [] := by
  induction rest with
  | nil => rfl
  | cons x xs ih =>
    simp only [List.map_cons, List.mem_cons, not_or] at h
    have hx : (x.id == i) = false := by
      simpa using fun hxi => h.1 hxi.symm
    simp only [List.filter_cons, hx, Bool.false_eq_true, if_false]
    exact ih h.2

theorem setEvent_count_one (l : List ScheduledEvent) (e : ScheduledEvent)
    (hwf : (l.map ScheduledEvent.id).Nodup) :
    ((setEvent l e).filter (fun x => x.id == e.id)).length = 1 := by
  induction l with
  | nil => simp [setEvent]
  | cons x rest ih =>
    simp only [List.map_cons, List.nodup_cons] at hwf
    by_cases hx : x.id == e.id
    · have hxid : x.id = e.id := by simpa using hx
      simp only [setEvent, hx, if_true, List.filter_cons]
      have he : (e.id == e.id) = true := by simp
      simp only [he, if_true]
      rw [filter_id_eq_nil_of_not_mem rest e.id (by rw [← hxid]; exact hwf.1)]
      rfl
    · simp only [setEvent, hx, Bool.false_eq_true, if_false, List.filter_cons, hx]
      exact ih hwf.2

/-- C10: add with an id already present deterministically and silently
overwrites: the returned record is rebuilt entirely from the argument and
the call instant (retryCount 0, both timestamps fresh, prior status and
history discarded), the store afterwards maps the id to exactly that
record, and - add never rejecting a duplicate - the store holds exactly
one record with the id. -/
theorem add_duplicate_overwrites (q : EventQueue) (ne : NewEvent) (now : Int)
    (hwf : q.WF) :
    (q.add ne now).1 =
      { id := ne.id, pluginName := ne.pluginName, eventType := ne.eventType,
        scheduledFor := ne.scheduledFor, status := ne.status, retryCount := 0,
        maxRetries := if ne.maxRetries = 0 then q.maxRetries else ne.maxRetries,
        payload := ne.payload, createdAt := now, updatedAt := now,
        lastAttemptAt := ne.lastAttemptAt, completedAt := ne.completedAt,
        error := ne.error } ∧
    (q.add ne now).2.get ne.id = some (q.add ne now).1 ∧
    ((q.add ne now).2.events.filter (fun e => e.id == ne.id)).length = 1 := by
  refine ⟨rfl, ?_, ?_⟩
  · exact findEvent_setEvent_self q.events (q.add ne now).1
  · exact setEvent_count_one q.events (q.add ne now).1 hwf

def dupNewEvent : NewEvent :=
  { id := "e0", pluginName := "tide", eventType := "tide.updated",
    scheduledFor := 900, status := .pending, maxRetries := 5,
    payload := samplePayload, lastAttemptAt := none, completedAt := none,
    error := none }

/-- C10 witness: adding over the sample store, whose single record already
carries the id of the new event. -/
theorem add_duplicate_overwrites_witness :
    (pendingQueue.events.map ScheduledEvent.id).Nodup ∧
    (pendingQueue.add dupNewEvent 200).2.get "e0" =
      some (pendingQueue.add dupNewEvent 200).1 ∧
    ((pendingQueue.add dupNewEvent 200).2.events.filter
      (fun e => e.id == "e0")).length = 1 :=
  ⟨by decide,
   (add_duplicate_overwrites pendingQueue dupNewEvent 200
     (show (pendingQueue.events.map ScheduledEvent.id).Nodup by decide)).2.1,
   (add_duplicate_overwrites pendingQueue dupNewEvent 200
     (show (pendingQueue.events.map ScheduledEvent.id).Nodup by decide)).2.2⟩

/-- C5: cancelEvent returns true exactly when a record with the id exists
in the store; in all cases the timer index afterwards holds no timer for
the id (so it is safe on non-armed ids), and a subsequent get of the id
returns null. -/
theorem cancelEvent_spec (s : EventScheduler) (id : String) :
    ((s.cancelEvent id).1 = true ↔ s.queue.get id ≠ none) ∧
    (s.cancelEvent id).2.hasTimer id = false ∧
    (s.cancelEvent id).2.queue.get id = none := by
  refine ⟨?_, ?_, ?_⟩
  · show (s.queue.events.any (fun e => e.id == id)) = true ↔ _
    unfold EventQueue.get findEvent
    rw [List.any_eq_true, ← List.find?_isSome]
    simp [Option.isSome_iff_ne_none]
  · show (s.scheduledTimers.filter (fun t => !(t.1 == id))).any (fun t => t.1 == id) = false
    rw [Bool.eq_false_iff, Ne, List.any_eq_true]
    rintro ⟨t, ht, hp⟩
    have := (List.mem_filter.mp ht).2
    simp [hp] at this
  · show findEvent (s.queue.events.filter (fun e => !(e.id == id))) id = none
    unfold findEvent
    rw [List.find?_eq_none]
    intro e he
    have := (List.mem_filter.mp he).2
    simpa using this

/-- The loop of cleanup computes the filtered survivors and counts the
removed records. -/
theorem cleanupList_spec (cutoff : Int) (l : List ScheduledEvent) :
    (EventQueue.cleanupList cutoff l).1 =
      l.filter (fun e =>
        !(decide ((e.status = .sent ∨ e.status = .failed) ∧ e.updatedAt < cutoff))) ∧
    (EventQueue.cleanupList cutoff l).2 =
      l.countP (fun e =>
        decide ((e.status = .sent ∨ e.status = .failed) ∧ e.updatedAt < cutoff)) := by
  induction l with
  | nil => exact ⟨rfl, rfl⟩
  | cons e rest ih =>
    by_cases hc : (e.status = .sent ∨ e.status = .failed) ∧ e.updatedAt < cutoff
    · simp only [EventQueue.cleanupList, hc, if_true, List.filter_cons, List.countP_cons,
        decide_eq_true_eq, hc, decide_True]
      constructor
      · simpa using ih.1
      · simpa using ih.2
    · simp only [EventQueue.cleanupList, hc, if_false, List.filter_cons, List.countP_cons]
      constructor
      · simpa [hc] using congrArg (List.cons e) ih.1
      · simpa [hc] using ih.2

/-- C6: cleanup removes exactly the records with a terminal status (sent or
failed) whose updatedAt is strictly older than now minus the retention
window, returns the count of removed records, and never removes a pending
or scheduled record regardless of age. -/
theorem cleanup_spec (q : EventQueue) (now : Int) :
    (q.cleanup now).1.events =
      q.events.filter (fun e =>
        !(decide ((e.status = .sent ∨ e.status = .failed) ∧
          e.updatedAt < now - (q.retentionHours : Int) * 3600000))) ∧
    (q.cleanup now).2 =
      q.events.countP (fun e =>
        decide ((e.status = .sent ∨ e.status = .failed) ∧
          e.updatedAt < now - (q.retentionHours : Int) * 3600000)) ∧
    ∀ e ∈ q.events, (e.status = .pending ∨ e.status = .scheduled) →
      e ∈ (q.cleanup now).1.events := by
  have h := cleanupList_spec (now - (q.retentionHours : Int) * 3600000) q.events
  refine ⟨h.1, h.2, ?_⟩
  intro e he hst
  rw [show (q.cleanup now).1.events = _ from h.1, List.mem_filter]
  refine ⟨he, ?_⟩
  have : ¬(e.status = .sent ∨ e.status = .failed) := by
    rcases hst with h1 | h1 <;> simp [h1]
  simp [this]

/-- C3: for a pending event put through scheduleEvent (no timer already
armed for its id, record present in the store), with delay = scheduledFor
minus now: an overdue event (delay at most 0) is delivered immediately with
no timer armed and no state change by the arming routine itself; a delay
inside the horizon arms a timer for exactly delay and marks the store
record scheduled; a delay beyond the horizon leaves everything untouched -
the record stays pending with no timer. -/
theorem scheduleEvent_arming_policy (s : EventScheduler) (e : ScheduledEvent)
    (now : Int) (_hp : e.status = .pending) (ht : s.hasTimer e.id = false)
    (hq : s.queue.get e.id = some e) :
    (e.scheduledFor - now ≤ 0 → s.scheduleEvent e now = (s, .deliveredNow)) ∧
    (0 < e.scheduledFor - now → e.scheduledFor - now ≤ s.horizonMs →
      (s.scheduleEvent e now).2 = .armed (e.scheduledFor - now) ∧
      (s.scheduleEvent e now).1.scheduledTimers =
        (e.id, e.scheduledFor) :: s.scheduledTimers ∧
      ∃ e2, (s.scheduleEvent e now).1.queue.get e.id = some e2 ∧
        e2.status = .scheduled ∧ e2.scheduledFor = e.scheduledFor ∧
        e2.retryCount = e.retryCount) ∧
    (s.horizonMs < e.scheduledFor - now → s.scheduleEvent e now = (s, .skippedTooFar)) := by
  have hH : (0 : Int) ≤ s.horizonMs := by
    unfold EventScheduler.horizonMs
    positivity
  refine ⟨?_, ?_, ?_⟩
  · intro hd
    unfold EventScheduler.scheduleEvent
    simp [ht, hd]
  · intro h1 h2
    have hd : ¬ (e.scheduledFor - now ≤ 0) := by omega
    have h3 : ¬ (s.horizonMs < e.scheduledFor - now) := by omega
    have hse : s.scheduleEvent e now =
        ({ s with scheduledTimers := (e.id, e.scheduledFor) :: s.scheduledTimers,
                  queue := s.queue.markAsScheduled e.id now },
         .armed (e.scheduledFor - now)) := by
      unfold EventScheduler.scheduleEvent
      simp [ht, hd, h3]
    rw [hse]
    refine ⟨rfl, rfl, ?_⟩
    exact ⟨_, EventQueue.get_update_found s.queue e.id _ now e hq, rfl, rfl, rfl⟩
  · intro h3
    have hd : ¬ (e.scheduledFor - now ≤ 0) := by omega
    unfold EventScheduler.scheduleEvent
    simp [ht, hd, h3]

/-- C3 witness: the sample pending event, due at 50, against a scheduler
with an empty timer index and default options; the overdue case applies at
now = 100. -/
theorem scheduleEvent_arming_policy_witness :
    ({ queue := pendingQueue, scheduledTimers := [], checkIntervalMs := 60000,
       scheduleHorizonHours := 6, isRunning := true } : EventScheduler).hasTimer "e0"
      = false ∧
    ({ queue := pendingQueue, scheduledTimers := [], checkIntervalMs := 60000,
       scheduleHorizonHours := 6, isRunning := true } : EventScheduler).scheduleEvent
        pendingEvent 100 =
      ({ queue := pendingQueue, scheduledTimers := [], checkIntervalMs := 60000,
         scheduleHorizonHours := 6, isRunning := true }, .deliveredNow) :=
  ⟨by decide,
   (scheduleEvent_arming_policy _ pendingEvent 100 (by decide) (by decide)
     (by decide)).1 (by decide)⟩

theorem get_foldl_markPending_preserved (ts : List (String × Int)) (now : Int)
    (id : String) :
    ∀ (q : EventQueue) (e : ScheduledEvent), q.get id = some e → e.status = .pending →
    ∃ e2, (ts.foldl (fun q t =>
        q.update t.1 (fun ev => { ev with status := .pending }) now) q).get id
      = some e2 ∧ e2.status = .pending := by
  induction ts with
  | nil => intro q e h hp; exact ⟨e, h, hp⟩
  | cons t rest ih =>
    intro q e h hp
    simp only [List.foldl_cons]
    by_cases hti : t.1 = id
    · have h2 : (q.update t.1 (fun ev => { ev with status := .pending }) now).get id
          = some { { e with status := EventStatus.pending } with
                    id := e.id, updatedAt := now } := by
        rw [hti]
        exact EventQueue.get_update_found q id _ now e h
      exact ih _ _ h2 rfl
    · refine ih _ e ?_ hp
      rw [EventQueue.get_update_frame q id t.1 _ now hti]
      exact h

theorem get_foldl_markPending (ts : List (String × Int)) (now : Int) (id : String) :
    ∀ (q : EventQueue) (e : ScheduledEvent), q.get id = some e →
    (∃ ft, (id, ft) ∈ ts) →
    ∃ e2, (ts.foldl (fun q t =>
        q.update t.1 (fun ev => { ev with status := .pending }) now) q).get id
      = some e2 ∧ e2.status = .pending := by
  induction ts with
  | nil =>
    rintro q e _ ⟨ft, hft⟩
    cases hft
  | cons t rest ih =>
    rintro q e h ⟨ft, hft⟩
    simp only [List.foldl_cons]
    by_cases hti : t.1 = id
    · have h2 : (q.update t.1 (fun ev => { ev with status := .pending }) now).get id
          = some { { e with status := EventStatus.pending } with
                    id := e.id, updatedAt := now } := by
        rw [hti]
        exact EventQueue.get_update_found q id _ now e h
      exact get_foldl_markPending_preserved rest now id _ _ h2 rfl
    · rcases List.mem_cons.mp hft with hhead | htail
      · exact absurd (congrArg Prod.fst hhead.symm) hti
      · refine ih _ e ?_ ⟨ft, htail⟩
        rw [EventQueue.get_update_frame q id t.1 _ now hti]
        exact h

/-- C7: stopping a running scheduler clears every live timer, reverts the
store status of every event that had a live timer back to pending, leaves
the armed-timer index empty, and flushes the store (the dirty flag is
cleared by the queue shutdown). -/
theorem stop_spec (s : EventScheduler) (now : Int) (hrun : s.isRunning = true) :
    (s.stop now).scheduledTimers = [] ∧
    (s.stop now).isRunning = false ∧
    (s.stop now).queue.dirty = false ∧
    ∀ idft ∈ s.scheduledTimers, ∀ e, s.queue.get idft.1 = some e →
      ∃ e2, (s.stop now).queue.get idft.1 = some e2 ∧ e2.status = .pending := by
  have hstop : s.stop now =
      { s with isRunning := false, scheduledTimers := [],
               queue := (s.scheduledTimers.foldl (fun q t =>
                 q.update t.1 (fun ev => { ev with status := .pending }) now)
                 s.queue).shutdown } := by
    unfold EventScheduler.stop
    simp [hrun]
  rw [hstop]
  refine ⟨rfl, rfl, rfl, ?_⟩
  intro idft hmem e he
  exact get_foldl_markPending s.scheduledTimers now idft.1 s.queue e he
    ⟨idft.2, by simpa using hmem⟩

def armedEvent : ScheduledEvent :=
  { id := "e2", pluginName := "tide", eventType := "tide.high",
    scheduledFor := 5000, status := .scheduled, retryCount := 0, maxRetries := 3,
    payload := samplePayload, createdAt := 0, updatedAt := 0,
    lastAttemptAt := none, completedAt := none, error := none }

def runningSched : EventScheduler :=
  { queue := { events := [armedEvent], retentionHours := 48, maxRetries := 3,
               dirty := true },
    scheduledTimers := [("e2", 5000)], checkIntervalMs := 60000,
    scheduleHorizonHours := 6, isRunning := true }

/-- C7 witness: a concrete running scheduler with one armed timer backing a
scheduled record. -/
theorem stop_spec_witness :
    runningSched.isRunning = true ∧
    (runningSched.stop 99).scheduledTimers = [] ∧
    (runningSched.stop 99).queue.dirty = false :=
  ⟨rfl, (stop_spec runningSched 99 rfl).1, (stop_spec runningSched 99 rfl).2.2.1⟩

/-- C8 counterexample: on a corrupt (unparseable) persistence file, startup
does not fail loudly: loadEvents catches the parse error, logs it, and
returns normally with an empty store, so the constructor continues. -/
theorem loadEvents_corrupt_returns_ok :
    loadEvents .corrupt = .ok { events := [], errorLogged := true } := rfl

/-- C8 amended: a missing persistence file yields an empty store with no
error logged and no error raised; a corrupt file yields an empty store with
the failure logged, and startup continues - loadEvents never propagates an
error for any file state. -/
theorem loadEvents_policy :
    loadEvents .missing = .ok { events := [], errorLogged := false } ∧
    loadEvents .corrupt = .ok { events := [], errorLogged := true } ∧
    ∀ fs, ∃ out, loadEvents fs = .ok out := by
  refine ⟨rfl, rfl, ?_⟩
  intro fs
  cases fs <;> exact ⟨_, rfl⟩

/-- C9: sendNotification returns a Boolean for every outcome of the HTTP
request (it never lets an exception escape): true exactly when the request
completed with a status below 400, and false for every status at least 400
(4xx and 5xx alike), on a timeout, and on a network error. -/
theorem sendNotification_success_iff :
    (∀ o, sendNotification o = true ↔ ∃ st, o = .response st ∧ st < 400) ∧
    sendNotification .timeout = false ∧
    sendNotification .networkError = false := by
  refine ⟨?_, rfl, rfl⟩
  intro o
  cases o with
  | response st =>
    simp only [sendNotification, validateStatus, HttpOutcome.response.injEq]
    by_cases h4 : st < 400
    · have h5 : st < 500 := by omega
      have h4n : ¬ (400 ≤ st) := by omega
      simp [h5, h4n, h4]
    · by_cases h5 : st < 500
      · have h4y : 400 ≤ st := by omega
        simp [h5, h4y, h4]
      · simp [h5, h4]
  | timeout => simp [sendNotification]
  | networkError => simp [sendNotification]

/-! Reconciliation-model lemmas, toward the restart liveness claim. -/

namespace EvState

theorem backoffMs_pos (n : Nat) : 0 < backoffMs n := by
  unfold backoffMs
  have h1 : 0 < 2 ^ n * 1000 := by positivity
  omega

/-- The arming effect of scheduleEvent on a pending record inside the
horizon: status scheduled, timer at the due instant. -/
def arm (s : EvState) : EvState :=
  { s with status := .scheduled, timer := some s.scheduledFor }

/-- States reachable by the scheduler loop: an armed timer always belongs
to a scheduled record and fires at its due instant. -/
@[reducible]
def Inv (s : EvState) : Prop :=
  (s.status = .scheduled → s.timer = some s.scheduledFor) ∧
  (∀ ft, s.timer = some ft → s.status = .scheduled ∧ ft = s.scheduledFor)

theorem arm_inv (s : EvState) : Inv (arm s) :=
  ⟨fun _ => rfl, fun _ hft => ⟨rfl, by cases hft; rfl⟩⟩

theorem not_terminal_iff (s : EvState) :
    ¬ s.terminal ↔ (s.status = .pending ∨ s.status = .scheduled) := by
  cases h : s.status <;> simp [terminal, h]

theorem attemptStep_spec (H : Int) (s : EvState) (now : Int) (b : Bool)
    (ht : s.timer = none) :
    Inv (attemptStep H s now b) ∧
    (attemptStep H s now b).attempts = s.attempts + 1 ∧
    (attemptStep H s now b).maxRetries = s.maxRetries ∧
    (terminal (attemptStep H s now b) ∨
      ((attemptStep H s now b).status = .pending ∨
        (attemptStep H s now b).status = .scheduled) ∧
      (attemptStep H s now b).retryCount = s.retryCount + 1 ∧
      (attemptStep H s now b).retryCount < s.maxRetries) := by
  simp only [attemptStep]
  split_ifs with hb hm hH
  · refine ⟨⟨fun h => (nomatch h), fun ft hft => ?_⟩, rfl, rfl,
      Or.inl (Or.inl rfl)⟩
    have h2 : s.timer = some ft := hft
    rw [ht] at h2
    cases h2
  · refine ⟨⟨fun h => (nomatch h), fun ft hft => ?_⟩, rfl, rfl,
      Or.inl (Or.inr rfl)⟩
    have h2 : s.timer = some ft := hft
    rw [ht] at h2
    cases h2
  · exact ⟨⟨fun _ => rfl, fun ft hft => ⟨rfl, by cases hft; rfl⟩⟩, rfl, rfl,
      Or.inr ⟨Or.inr rfl, rfl, show s.retryCount + 1 < s.maxRetries by omega⟩⟩
  · exact ⟨⟨fun h => (nomatch h), fun ft hft => by cases hft⟩, rfl, rfl,
      Or.inr ⟨Or.inl rfl, rfl, show s.retryCount + 1 < s.maxRetries by omega⟩⟩

theorem missedStep_attempt_fixed (H : Int) (ok : Nat → Bool) (s : EvState)
    (now : Int) (b : Bool) (_ht : s.timer = none) :
    missedStep H ok (attemptStep H s now b) now = attemptStep H s now b := by
  simp only [attemptStep]
  split_ifs with hb hm hH
  · simp [missedStep]
  · simp [missedStep]
  · simp [missedStep]
  · have hgt : ¬ (now + (backoffMs (s.retryCount + 1) : Int) ≤ now) := by
      have := backoffMs_pos (s.retryCount + 1)
      omega
    simp [missedStep, hgt]

theorem upcomingStep_attempt_fixed (H : Int) (ok : Nat → Bool) (s : EvState)
    (now : Int) (b : Bool) (_ht : s.timer = none) :
    upcomingStep H ok (attemptStep H s now b) now = attemptStep H s now b := by
  simp only [attemptStep]
  split_ifs with hb hm hH
  · simp [upcomingStep]
  · simp [upcomingStep]
  · simp [upcomingStep]
  · have hin : ¬ (now + (backoffMs (s.retryCount + 1) : Int) ≤ now + H) := by omega
    simp [upcomingStep, hin]

/-- A state with no timer and timer = none equals itself with the timer
field forced to none. -/
theorem eta_timer_none (s : EvState) (ht : s.timer = none) :
    { s with timer := none } = s := by
  cases s
  simp_all

/-- A due, non-terminal record is attempted by the round: the round equals
one delivery attempt (timer dropped first when one was armed). -/
theorem pass_due (H : Int) (ok : Nat → Bool) (s : EvState) (now : Int)
    (hInv : Inv s) (hnt : s.status = .pending ∨ s.status = .scheduled)
    (hdue : s.scheduledFor ≤ now) :
    pass H ok s now = attemptStep H { s with timer := none } now (ok s.attempts) := by
  rcases hnt with hp | hs
  · have ht : s.timer = none := by
      cases hft : s.timer with
      | none => rfl
      | some ft =>
        have := (hInv.2 ft hft).1
        rw [hp] at this
        cases this
    unfold pass
    rw [show fireStep H ok s now = s by unfold fireStep; rw [ht]]
    rw [show missedStep H ok s now = attemptStep H s now (ok s.attempts) by
      unfold missedStep
      rw [if_pos ⟨Or.inl hp, hdue, ht⟩]]
    rw [upcomingStep_attempt_fixed H ok s now _ ht, eta_timer_none s ht]
  · have ht : s.timer = some s.scheduledFor := hInv.1 hs
    unfold pass
    rw [show fireStep H ok s now
        = attemptStep H { s with timer := none } now (ok s.attempts) by
      unfold fireStep
      rw [ht]
      simp [hdue]]
    rw [missedStep_attempt_fixed H ok _ now _ rfl,
        upcomingStep_attempt_fixed H ok _ now _ rfl]

/-- Before the due instant a round leaves a non-terminal record unchanged,
except possibly arming its timer (the scheduleUpcomingEvents branch). -/
theorem pass_not_due (H : Int) (ok : Nat → Bool) (s : EvState) (now : Int)
    (hInv : Inv s) (hnt : s.status = .pending ∨ s.status = .scheduled)
    (hlt : now < s.scheduledFor) :
    pass H ok s now = s ∨ pass H ok s now = arm s := by
  have hnotdue : ¬ (s.scheduledFor ≤ now) := by omega
  rcases hnt with hp | hs
  · have ht : s.timer = none := by
      cases hft : s.timer with
      | none => rfl
      | some ft =>
        have := (hInv.2 ft hft).1
        rw [hp] at this
        cases this
    unfold pass
    rw [show fireStep H ok s now = s by unfold fireStep; rw [ht]]
    rw [show missedStep H ok s now = s by
      unfold missedStep
      rw [if_neg (by rintro ⟨_, h2, _⟩; exact hnotdue h2)]]
    by_cases hin : s.scheduledFor ≤ now + H
    · right
      unfold upcomingStep
      rw [if_pos ⟨hp, ht, hin⟩, if_neg (by omega), if_neg (by omega)]
      rfl
    · left
      unfold upcomingStep
      rw [if_neg (by rintro ⟨_, _, h3⟩; exact hin h3)]
  · left
    have ht : s.timer = some s.scheduledFor := hInv.1 hs
    unfold pass
    rw [show fireStep H ok s now = s by unfold fireStep; rw [ht]; simp [hnotdue]]
    rw [show missedStep H ok s now = s by
      unfold missedStep
      rw [if_neg (by rintro ⟨_, h2, _⟩; exact hnotdue h2)]]
    unfold upcomingStep
    rw [if_neg (by rintro ⟨h1, _, _⟩; rw [hs] at h1; cases h1)]

/-- A terminal record is left untouched by every later round. -/
theorem pass_terminal (H : Int) (ok : Nat → Bool) (s : EvState) (now : Int)
    (hInv : Inv s) (hterm : s.terminal) :
    pass H ok s now = s := by
  have ht : s.timer = none := by
    cases hft : s.timer with
    | none => rfl
    | some ft =>
      have := (hInv.2 ft hft).1
      rcases hterm with h | h <;> rw [this] at h <;> cases h
  have hnp : ¬ (s.status = .pending ∨ s.status = .scheduled) :=
    fun hc => (not_terminal_iff s).mpr hc hterm
  unfold pass
  rw [show fireStep H ok s now = s by unfold fireStep; rw [ht]]
  rw [show missedStep H ok s now = s by
    unfold missedStep
    rw [if_neg (by rintro ⟨h1, _, _⟩; exact hnp h1)]]
  unfold upcomingStep
  rw [if_neg (by rintro ⟨h1, _, _⟩; exact hnp (Or.inl h1))]

theorem stepsFrom_zero (H I t0 : Int) (ok : Nat → Bool) (k : Nat) (s : EvState) :
    stepsFrom H I t0 ok k s 0 = s := rfl

theorem stepsFrom_succ (H I t0 : Int) (ok : Nat → Bool) (k : Nat) (s : EvState)
    (n : Nat) :
    stepsFrom H I t0 ok k s (n + 1) =
      stepsFrom H I t0 ok (k + 1) (pass H ok s (t0 + (k : Int) * I)) n := rfl

theorem stepsFrom_add (H I t0 : Int) (ok : Nat → Bool) :
    ∀ (a k : Nat) (s : EvState) (b : Nat),
      stepsFrom H I t0 ok k s (a + b) =
        stepsFrom H I t0 ok (k + a) (stepsFrom H I t0 ok k s a) b := by
  intro a
  induction a with
  | zero =>
    intro k s b
    simp [stepsFrom_zero]
  | succ a ih =>
    intro k s b
    have h1 : a + 1 + b = (a + b) + 1 := by omega
    rw [h1, stepsFrom_succ, ih (k + 1) _ b, stepsFrom_succ]
    congr 1
    omega

theorem arm_arm (s : EvState) : arm (arm s) = arm s := rfl

/-- Waiting for the due instant: until the first round at or past the due
instant, a non-terminal record is carried unchanged except for possibly
being armed. -/
theorem waitDue (H I t0 : Int) (hI : 1 ≤ I) (ok : Nat → Bool) :
    ∀ (m : Nat) (s : EvState) (k : Nat), Inv s →
      (s.status = .pending ∨ s.status = .scheduled) →
      (s.scheduledFor - (t0 + (k : Int) * I)).toNat ≤ m →
      ∃ (j : Nat) (s2 : EvState), stepsFrom H I t0 ok k s j = s2 ∧
        (s2 = s ∨ s2 = arm s) ∧
        s2.scheduledFor ≤ t0 + ((k + j : Nat) : Int) * I := by
  intro m
  induction m with
  | zero =>
    intro s k hInv hnt hm
    refine ⟨0, s, rfl, Or.inl rfl, ?_⟩
    have h0 : s.scheduledFor - (t0 + (k : Int) * I) ≤ 0 :=
      Int.toNat_eq_zero.mp (Nat.le_zero.mp hm)
    have hc : ((k + 0 : Nat) : Int) = (k : Int) := by push_cast; ring
    rw [hc]
    omega
  | succ m ih =>
    intro s k hInv hnt hm
    by_cases hdue : s.scheduledFor ≤ t0 + (k : Int) * I
    · refine ⟨0, s, rfl, Or.inl rfl, ?_⟩
      have hc : ((k + 0 : Nat) : Int) = (k : Int) := by push_cast; ring
      rw [hc]
      exact hdue
    · push_neg at hdue
      have hT1 : t0 + ((k + 1 : Nat) : Int) * I = (t0 + (k : Int) * I) + I := by
        push_cast
        ring
      have hm2 : ∀ sf : Int, sf = s.scheduledFor →
          (sf - (t0 + ((k + 1 : Nat) : Int) * I)).toNat ≤ m := by
        intro sf hsf
        rw [Int.toNat_le] at hm ⊢
        rw [hT1, hsf]
        push_cast at hm ⊢
        omega
      rcases pass_not_due H ok s (t0 + (k : Int) * I) hInv hnt hdue with hp | hp
      · rcases ih s (k + 1) hInv hnt (hm2 s.scheduledFor rfl) with
          ⟨j, s2, hsteps, hor, hdue2⟩
        refine ⟨j + 1, s2, ?_, hor, ?_⟩
        · rw [stepsFrom_succ, hp]
          exact hsteps
        · have hc : ((k + (j + 1) : Nat) : Int) = ((k + 1 + j : Nat) : Int) := by
            push_cast
            ring
          rw [hc]
          exact hdue2
      · rcases ih (arm s) (k + 1) (arm_inv s) (Or.inr rfl) (hm2 (arm s).scheduledFor rfl)
          with ⟨j, s2, hsteps, hor, hdue2⟩
        refine ⟨j + 1, s2, ?_, ?_, ?_⟩
        · rw [stepsFrom_succ, hp]
          exact hsteps
        · rcases hor with h | h
          · exact Or.inr h
          · rw [arm_arm] at h
            exact Or.inr h
        · have hc : ((k + (j + 1) : Nat) : Int) = ((k + 1 + j : Nat) : Int) := by
            push_cast
            ring
          rw [hc]
          exact hdue2

/-- One full delivery attempt: from any non-terminal state some later round
performs an attempt, leaving the record terminal or retried with the retry
count incremented and still below maxRetries. -/
theorem oneAttempt (H I t0 : Int) (hI : 1 ≤ I) (ok : Nat → Bool)
    (s : EvState) (k : Nat) (hInv : Inv s)
    (hnt : s.status = .pending ∨ s.status = .scheduled) :
    ∃ (j : Nat) (r : EvState), stepsFrom H I t0 ok k s j = r ∧
      (r.terminal ∨ (Inv r ∧ (r.status = .pending ∨ r.status = .scheduled) ∧
        r.retryCount = s.retryCount + 1 ∧ r.retryCount < s.maxRetries ∧
        r.maxRetries = s.maxRetries)) := by
  rcases waitDue H I t0 hI ok (s.scheduledFor - (t0 + (k : Int) * I)).toNat s k hInv hnt
    le_rfl with ⟨j, s2, hsteps, hor, hdue⟩
  have hInv2 : Inv s2 := by
    rcases hor with h | h
    · rw [h]; exact hInv
    · rw [h]; exact arm_inv s
  have hnt2 : s2.status = .pending ∨ s2.status = .scheduled := by
    rcases hor with h | h
    · rw [h]; exact hnt
    · rw [h]; exact Or.inr rfl
  have hrc : s2.retryCount = s.retryCount := by
    rcases hor with h | h <;> simp [h, arm]
  have hmr : s2.maxRetries = s.maxRetries := by
    rcases hor with h | h <;> simp [h, arm]
  have hpass := pass_due H ok s2 (t0 + ((k + j : Nat) : Int) * I) hInv2 hnt2 hdue
  have hspec := attemptStep_spec H { s2 with timer := none }
    (t0 + ((k + j : Nat) : Int) * I) (ok s2.attempts) rfl
  refine ⟨j + 1, pass H ok s2 (t0 + ((k + j : Nat) : Int) * I), ?_, ?_⟩
  · rw [show j + 1 = j + 1 from rfl, stepsFrom_add H I t0 ok j k s 1, hsteps,
      stepsFrom_succ, stepsFrom_zero]
  · rw [hpass]
    rcases hspec.2.2.2 with hterm | hrest
    · exact Or.inl hterm
    · refine Or.inr ⟨hspec.1, hrest.1, ?_, ?_, ?_⟩
      · rw [hrest.2.1]
        show s2.retryCount + 1 = s.retryCount + 1
        rw [hrc]
      · have h2 := hrest.2.2
        show _ < s.maxRetries
        rw [← hmr]
        exact h2
      · rw [hspec.2.2.1]
        show s2.maxRetries = s.maxRetries
        exact hmr

/-- Bounded retries force termination: from any state satisfying the timer
invariant, under any gateway oracle, some later round leaves the record
terminal. -/
theorem attemptsTerminal (H I t0 : Int) (hI : 1 ≤ I) (ok : Nat → Bool) :
    ∀ (fuel : Nat) (s : EvState) (k : Nat), Inv s →
      s.maxRetries - s.retryCount ≤ fuel →
      ∃ n, (stepsFrom H I t0 ok k s n).terminal := by
  intro fuel
  induction fuel with
  | zero =>
    intro s k hInv hfuel
    by_cases hterm : s.terminal
    · exact ⟨0, hterm⟩
    · have hnt := (not_terminal_iff s).mp hterm
      rcases oneAttempt H I t0 hI ok s k hInv hnt with ⟨j, r, hsteps, hr⟩
      rcases hr with hrt | hrn
      · refine ⟨j, ?_⟩
        rw [hsteps]
        exact hrt
      · have h1 := hrn.2.2.1
        have h2 := hrn.2.2.2.1
        omega
  | succ fuel ih =>
    intro s k hInv hfuel
    by_cases hterm : s.terminal
    · exact ⟨0, hterm⟩
    · have hnt := (not_terminal_iff s).mp hterm
      rcases oneAttempt H I t0 hI ok s k hInv hnt with ⟨j, r, hsteps, hr⟩
      rcases hr with hrt | hrn
      · refine ⟨j, ?_⟩
        rw [hsteps]
        exact hrt
      · have h1 := hrn.2.2.1
        have h2 := hrn.2.2.2.1
        have h3 := hrn.2.2.2.2
        have hfuel2 : r.maxRetries - r.retryCount ≤ fuel := by omega
        rcases ih r (k + j) hrn.1 hfuel2 with ⟨n2, hn2⟩
        refine ⟨j + n2, ?_⟩
        rw [stepsFrom_add H I t0 ok j k s n2, hsteps]
        exact hn2

end EvState

/-- C2: a freshly started scheduler (no live timer) facing any pending
event due within the scheduling horizon eventually drives it to a terminal
status - sent or failed - under every sequence of gateway outcomes, with
rounds of the reconciliation loop running every I ms from t0 on; moreover,
once the event is due, any single round attempts its delivery, so a due
event with no live timer is attempted no later than one reconciliation
interval after it becomes due. -/
theorem scheduler_eventual_delivery (H I t0 : Int) (hI : 1 ≤ I) (ok : Nat → Bool)
    (s : EvState) (hp : s.status = .pending) (ht : s.timer = none)
    (_hhor : s.scheduledFor ≤ t0 + H) :
    (∃ n, (EvState.run H I t0 ok s n).terminal) ∧
    (∀ now, s.scheduledFor ≤ now →
      (EvState.pass H ok s now).attempts = s.attempts + 1) := by
  have hInv : EvState.Inv s := by
    constructor
    · intro h
      rw [hp] at h
      cases h
    · intro ft hft
      rw [ht] at hft
      cases hft
  constructor
  · exact EvState.attemptsTerminal H I t0 hI ok s.maxRetries s 0 hInv (by omega)
  · intro now hnow
    rw [EvState.pass_due H ok s now hInv (Or.inl hp) hnow]
    exact (EvState.attemptStep_spec H { s with timer := none } now (ok s.attempts) rfl).2.1

def freshEvState : EvState :=
  { status := .pending, retryCount := 0, maxRetries := 3, scheduledFor := 5000,
    timer := none, attempts := 0 }

/-- C2 witness: a concrete pending event due at 5000 ms, horizon 6 h,
reconciliation interval 60 s, against a gateway that always fails. -/
theorem scheduler_eventual_delivery_witness :
    ((1 : Int) ≤ 60000 ∧ freshEvState.status = .pending ∧
      freshEvState.timer = none ∧ freshEvState.scheduledFor ≤ 0 + 21600000) ∧
    (∃ n, (EvState.run 21600000 60000 0 (fun _ => false) freshEvState n).terminal) :=
  ⟨⟨by norm_num, rfl, rfl, by decide⟩,
   (scheduler_eventual_delivery 21600000 60000 0 (by norm_num) (fun _ => false)
     freshEvState rfl rfl (by decide)).1⟩

end NtfyFetch
